import Mathlib

/-!
# Maritime requirements lookup: the query pipeline of `script.js`

A shallow embedding of the filtering and aggregation code of the `MaritimeApp`
class (`performSearch`, `displaySearchResults`, `createRequirementElement`) and
of the global helper `searchRequirements`, followed by the properties that the
specification states about them.

Modelling conventions.

* A data object is an object literal: the list of its own entries as written,
  with `Object.prototype` as its prototype. `getProp` is the property read
  `obj[key]`: an own value, a member inherited from `Object.prototype`, or
  `undefined`. `objectKeys` lists array-index keys first, as `Object.keys` does.
* Own values of a `ranks` mapping are strings; every inherited member is a
  function or an object, hence truthy and different from every string.
* A string is well-formed Unicode text, given as its sequence of characters.
  `trim` strips the white space and line terminators of ECMAScript. The case
  mapping of `toLowerCase` is a table of the runtime and enters as a parameter.
* A thrown `TypeError` is the `Except.error` result.
* DOM updates are recorded in the value returned by the function; the
  `setTimeout` delay of `performSearch` is not part of the model.
-/

namespace Maritime

/-! ## JavaScript primitives -/

/-- The result of a property read `obj[key]` on an object literal. -/
inductive Lookup (α : Type) where
  | own (value : α)
  | inherited
  | undefined
deriving DecidableEq

/-- The names of the members of `Object.prototype`. -/
def objectPrototypeKeys : List String :=
  ["constructor", "__defineGetter__", "__defineSetter__", "hasOwnProperty",
   "__lookupGetter__", "__lookupSetter__", "isPrototypeOf", "propertyIsEnumerable",
   "toString", "valueOf", "__proto__", "toLocaleString"]

/-- The own property stored under `key`, if there is one. -/
def getOwn {α : Type} : List (String × α) → String → Option α
  | [], _ => none
  | (k, v) :: rest, key => if k = key then some v else getOwn rest key

/-- Property read `obj[key]`: the own property if there is one, else the member
of `Object.prototype` of that name, else `undefined`. -/
def getProp {α : Type} (obj : List (String × α)) (key : String) : Lookup α :=
  match getOwn obj key with
  | some v => .own v
  | none => if key ∈ objectPrototypeKeys then .inherited else .undefined

/-- Every own key once, in insertion order. -/
def ownKeys {α : Type} : List (String × α) → List String
  | [] => []
  | (k, _) :: rest => k :: (ownKeys rest).filter (fun k2 => decide (k2 ≠ k))

/-- The number written by a string of decimal digits. -/
def indexValue (k : String) : Nat :=
  k.data.foldl (fun n c => 10 * n + (c.toNat - 48)) 0

/-- The key is an array index: the canonical decimal numeral of an integer
below `2^32 - 1`. -/
def isArrayIndex (k : String) : Bool :=
  !k.data.isEmpty && k.data.all Char.isDigit &&
  (decide (k.data.head? ≠ some '0') || decide (k.data.length = 1)) &&
  decide (indexValue k < 4294967295)

/-- The result of `Object.keys(obj)`: the own keys that are array indices in
ascending numeric order, then the other own keys in insertion order. -/
def objectKeys {α : Type} (obj : List (String × α)) : List String :=
  ((ownKeys obj).filter isArrayIndex).insertionSort (fun a b => indexValue a ≤ indexValue b) ++
  (ownKeys obj).filter (fun k => !isArrayIndex k)

/-- Truthiness of a string value: every string but the empty one. -/
def truthyString (s : String) : Bool := decide (s ≠ "")

/-- Truthiness of a property read on a mapping with string values. -/
def truthy : Lookup String → Bool
  | .own s => truthyString s
  | .inherited => true
  | .undefined => false

/-- Truthiness of an optional string field. -/
def truthyField : Option String → Bool
  | some s => truthyString s
  | none => false

/-- Strict equality `v === c` of a property read with a string constant. -/
def strictEq (v : Lookup String) (c : String) : Bool := decide (v = .own c)

/-- The method `String.prototype.toLowerCase` of the runtime. Its Unicode case
mapping is not part of the script, so it is a parameter of the model; the one
property the proofs use is that the lowercased string is empty exactly when the
string is. -/
structure LowerCase where
  fold : String → String
  fold_eq_empty : ∀ s : String, fold s = "" ↔ s = ""

/-- The call `s.toLowerCase()`. -/
def toLowerCase (L : LowerCase) (s : String) : String := L.fold s

/-- Lowercasing of the letters `A`-`Z`, every other character kept. -/
def asciiFold (s : String) : String := String.mk (s.data.map Char.toLower)

/-- The case mapping on the letters `A`-`Z`, with which the case mapping of the
runtime agrees on ASCII text; the examples below are evaluated with it. -/
def asciiLowerCase : LowerCase where
  fold := asciiFold
  fold_eq_empty := by
    intro s
    constructor
    · intro he
      have hd : (asciiFold s).data = [] := by rw [he]
      simp only [asciiFold, List.map_eq_nil_iff] at hd
      exact String.ext hd
    · intro he
      rw [he]
      rfl

/-- White space and line terminators removed by `String.prototype.trim`. -/
def isTrimChar (c : Char) : Bool :=
  let n := c.toNat
  n = 0x9 || n = 0xA || n = 0xB || n = 0xC || n = 0xD || n = 0x20 || n = 0xA0 ||
  n = 0x1680 || (0x2000 ≤ n && n ≤ 0x200A) || n = 0x2028 || n = 0x2029 ||
  n = 0x202F || n = 0x205F || n = 0x3000 || n = 0xFEFF

/-- The method `String.prototype.trim`. -/
def trim (s : String) : String :=
  String.mk ((s.data.dropWhile isTrimChar).reverse.dropWhile isTrimChar).reverse

/-- The method `String.prototype.includes`: `t` occurs in `s` as a substring. -/
def includes (s t : String) : Bool := decide (t.data <:+: s.data)

/-! ## Data model -/

/-- One certification or training requirement of a flag. -/
structure Requirement where
  name : String
  category : String
  description : String
  stcw : Option String
  ranks : List (String × String)
deriving DecidableEq

/-- The data of one flag registry; `ranks` lists the keys of its rank object. -/
structure FlagData where
  flagName : String
  ranks : List String
  requirements : List Requirement
deriving DecidableEq

/-- The fields of the `MaritimeApp` object read by the query code. -/
structure MaritimeApp where
  currentData : Option FlagData
  allFlags : List (String × FlagData)
deriving DecidableEq

/-- An exception thrown by the script. -/
inductive JsError where
  | typeError
deriving DecidableEq

/-- Equality of completions is decidable. -/
instance instDecidableEqExcept {ε α : Type} [DecidableEq ε] [DecidableEq α] :
    DecidableEq (Except ε α)
  | .ok a, .ok b => if h : a = b then isTrue (by rw [h]) else isFalse (fun h2 => h (by cases h2; rfl))
  | .error a, .error b =>
    if h : a = b then isTrue (by rw [h]) else isFalse (fun h2 => h (by cases h2; rfl))
  | .ok _, .error _ => isFalse (fun h => by cases h)
  | .error _, .ok _ => isFalse (fun h => by cases h)

/-- The card built by `createRequirementElement` for one requirement; `stcw` is
the reference shown on the card, if a line for it is rendered. -/
structure RequirementElement where
  name : String
  showStatus : Bool
  status : String
  statusClass : String
  category : String
  description : String
  stcw : Option String
  applicableRanks : List String
  mandatoryCount : Nat
  recommendedCount : Nat
deriving DecidableEq

/-- What `displaySearchResults` writes to the page. -/
structure SearchDisplay where
  title : String
  summary : String
  results : List Requirement
  elements : List RequirementElement
deriving DecidableEq

/-- What a click on the search button leads to. -/
inductive SearchOutcome where
  | usageError (message : String)
  | displayed (shown : Except JsError SearchDisplay)
deriving DecidableEq

/-! ## The application code -/

/-- The method `loadData`: the first key of the dataset, when it is truthy,
selects the current flag. -/
def loadData (data : List (String × FlagData)) : MaritimeApp :=
  match objectKeys data with
  | [] => { currentData := none, allFlags := data }
  | firstFlag :: _ =>
    if truthyString firstFlag then
      match getProp data firstFlag with
      | .own fd => { currentData := some fd, allFlags := data }
      | _ => { currentData := none, allFlags := data }
    else
      { currentData := none, allFlags := data }

/-- The method `onFlagChange`. For a code that names a member of
`Object.prototype` the guard passes and `populateRanks` throws on the missing
`ranks` of that member. -/
def onFlagChange (app : MaritimeApp) (flagCode : String) : Except JsError MaritimeApp :=
  if truthyString flagCode then
    match getProp app.allFlags flagCode with
    | .own fd => .ok { app with currentData := some fd }
    | .inherited => .error .typeError
    | .undefined => .ok app
  else .ok app

/-- Lines 160-169 of `displaySearchResults`: the flag data and requirement
list the query starts from. Reading `requirements` of `undefined` throws; the
`requirements` of a member of `Object.prototype` is `undefined`, and the next
use of `results` (`filter` or `length`) throws. -/
def resolveFlag (app : MaritimeApp) (flagCode : String) :
    Except JsError (Option FlagData × List Requirement) :=
  if truthyString flagCode then
    match getProp app.allFlags flagCode with
    | .own fd => .ok (some fd, fd.requirements)
    | .inherited => .error .typeError
    | .undefined => .error .typeError
  else
    match app.currentData with
    | some cd => .ok (some cd, cd.requirements)
    | none => .ok (none, [])

/-- The callback of the search filter (lines 174-177). -/
def matchesSearch (L : LowerCase) (searchTerm : String) (req : Requirement) : Bool :=
  includes (toLowerCase L req.name) searchTerm ||
  includes (toLowerCase L req.category) searchTerm ||
  includes (toLowerCase L req.description) searchTerm

/-- Lines 171-179 of `displaySearchResults`: filter by search term. -/
def searchStep (L : LowerCase) (searchTerm : String) (results : List Requirement) :
    List Requirement :=
  if truthyString searchTerm then results.filter (matchesSearch L searchTerm) else results

/-- Lines 181-184 of `displaySearchResults`: filter by rank. -/
def rankStep (rank : String) (results : List Requirement) : List Requirement :=
  if truthyString rank then results.filter (fun req => truthy (getProp req.ranks rank))
  else results

/-- The method `createRequirementElement`. -/
def createRequirementElement (requirement : Requirement) (selectedRank : String)
    (_flagData : Option FlagData) : RequirementElement :=
  let value := getProp requirement.ranks selectedRank
  let statusPair : String × String :=
    if truthyString selectedRank && truthy value then
      if strictEq value "M" then ("Mandatory", "status-mandatory")
      else if strictEq value "R" then ("Recommended", "status-recommended")
      else ("N/A", "status-na")
    else ("N/A", "status-na")
  let applicableRanks := (objectKeys requirement.ranks).filter
    (fun rank => truthy (getProp requirement.ranks rank) &&
      decide (getProp requirement.ranks rank ≠ .own ""))
  let mandatoryCount := ((objectKeys requirement.ranks).filter
    (fun rank => strictEq (getProp requirement.ranks rank) "M")).length
  let recommendedCount := ((objectKeys requirement.ranks).filter
    (fun rank => strictEq (getProp requirement.ranks rank) "R")).length
  { name := requirement.name
    showStatus := truthyString selectedRank
    status := statusPair.1
    statusClass := statusPair.2
    category := requirement.category
    description := requirement.description
    stcw := if truthyField requirement.stcw then requirement.stcw else none
    applicableRanks := applicableRanks
    mandatoryCount := mandatoryCount
    recommendedCount := recommendedCount }

/-- The text of the summary line. -/
def foundSummary (results : List Requirement) : String :=
  "Found " ++ toString results.length ++ " requirements"

/-- The method `displaySearchResults`. -/
def displaySearchResults (L : LowerCase) (app : MaritimeApp)
    (flagCode rank searchTerm : String) : Except JsError SearchDisplay :=
  match resolveFlag app flagCode with
  | .error e => .error e
  | .ok (flagData, results) =>
    let results := searchStep L searchTerm results
    let results := rankStep rank results
    let heading : String × String :=
      match flagData with
      | some fd =>
        if truthyString rank then
          ("Requirements for " ++ rank ++ " - " ++ fd.flagName, foundSummary results)
        else ("Requirements for " ++ fd.flagName, foundSummary results)
      | none =>
        if truthyString searchTerm then
          ("Search Results for \"" ++ searchTerm ++ "\"", foundSummary results)
        else ("Search Results", "")
    .ok { title := heading.1
          summary := heading.2
          results := results
          elements := results.map (fun requirement =>
            createRequirementElement requirement rank flagData) }

/-- The message of the alert raised by `performSearch`. -/
def usageMessage : String := "Please select a flag, rank, or enter a search term"

/-- The method `performSearch`, given the values of the three form controls. -/
def performSearch (L : LowerCase) (app : MaritimeApp) (flagCode rank searchInput : String) :
    SearchOutcome :=
  let searchTerm := trim (toLowerCase L searchInput)
  if !truthyString flagCode && !truthyString rank && !truthyString searchTerm then
    .usageError usageMessage
  else
    .displayed (displaySearchResults L app flagCode rank searchTerm)

/-- The callback of the filter of `searchRequirements` (lines 363-367). -/
def matchesSearchStcw (L : LowerCase) (term : String) (req : Requirement) : Bool :=
  includes (toLowerCase L req.name) term ||
  includes (toLowerCase L req.category) term ||
  includes (toLowerCase L req.description) term ||
  (truthyField req.stcw &&
    match req.stcw with
    | some s => includes (toLowerCase L s) term
    | none => false)

/-- The global function `searchRequirements`; `none` is a missing `flagData`. -/
def searchRequirements (L : LowerCase) (searchTerm : String) (flagData : Option FlagData) :
    List Requirement :=
  match flagData with
  | none => []
  | some fd =>
    if !truthyString searchTerm then []
    else fd.requirements.filter (matchesSearchStcw L (toLowerCase L searchTerm))

/-- The global function `getRequirementsByRank`; `none` is a missing `flagData`. -/
def getRequirementsByRank (rank : String) (flagData : Option FlagData) :
    List Requirement :=
  match flagData with
  | none => []
  | some fd =>
    if !truthyString rank then []
    else fd.requirements.filter (fun req => truthy (getProp req.ranks rank))

/-! ## Example data -/

/-- The requirement of the specification's examples. -/
def fireSafety : Requirement :=
  { name := "Fire Safety", category := "Safety", description := "Basic fire training",
    stcw := none, ranks := [("Master", "M"), ("OOW", "R")] }

/-- The flag of the specification's examples. -/
def flagAB : FlagData :=
  { flagName := "Antigua & Barbuda", ranks := ["Master", "OOW"], requirements := [fireSafety] }

/-- The dataset of the specification's examples, as loaded at start-up. -/
def exampleApp : MaritimeApp := loadData [("AB", flagAB)]

/-- A second requirement, with an STCW reference. -/
def fireFighting : Requirement :=
  { name := "Advanced Fire Fighting", category := "Safety", description := "Fire team leader",
    stcw := some "A-VI/3", ranks := [("Master", "M")] }

/-- The flag stored under the empty code in `blankCodeApp`. -/
def flagBlank : FlagData :=
  { flagName := "Unnamed registry", ranks := ["Master"], requirements := [fireFighting] }

/-- A dataset with two flags, the second under the empty code, as loaded at start-up. -/
def blankCodeApp : MaritimeApp := loadData [("AB", flagAB), ("", flagBlank)]

/-- A requirement carrying a code outside the data model. -/
def oddRequirement : Requirement :=
  { name := "Radar Observer", category := "Navigation", description := "Radar plotting",
    stcw := none, ranks := [("Master", "X")] }

/-- A dataset holding `oddRequirement`, as loaded at start-up. -/
def oddApp : MaritimeApp :=
  loadData [("XX", { flagName := "Test flag", ranks := ["Master"],
                     requirements := [oddRequirement] })]

/-- The flag data holding both example requirements. -/
def flagBoth : FlagData :=
  { flagName := "Both", ranks := ["Master", "OOW"], requirements := [fireSafety, fireFighting] }

/-! ## Vocabulary of the specification -/

/-- The string `t` occurs in `s` as a substring. -/
def IsSubstring (t s : String) : Prop := ∃ a b : String, s = a ++ t ++ b

/-- Occurrence as a substring can be decided by scanning for an infix. -/
instance decidableIsSubstring (t s : String) : Decidable (IsSubstring t s) :=
  if h : t.data <:+: s.data then
    isTrue (by
      obtain ⟨l1, l2, e⟩ := h
      exact ⟨String.mk l1, String.mk l2, by apply String.ext; simp [String.data_append, e]⟩)
  else
    isFalse (by
      rintro ⟨a, b, e⟩
      exact h ⟨a.data, b.data, by rw [e]; simp [String.data_append]⟩)

/-- The three-field match of the specification: the term occurs in the
lowercased name, category or description. -/
def Mentions (L : LowerCase) (t : String) (req : Requirement) : Prop :=
  IsSubstring t (toLowerCase L req.name) ∨ IsSubstring t (toLowerCase L req.category) ∨
    IsSubstring t (toLowerCase L req.description)

/-- The three-field match is decidable. -/
instance decidableMentions (L : LowerCase) (t : String) (req : Requirement) :
    Decidable (Mentions L t req) := by
  unfold Mentions; infer_instance

/-- The `ranks` mapping of the requirement holds a non-empty applicability code
under the key `r`. -/
def HasCode (r : String) (req : Requirement) : Prop :=
  ∃ c : String, getProp req.ranks r = .own c ∧ c ≠ ""

/-- Holding a non-empty code is decidable. -/
instance decidableHasCode (r : String) (req : Requirement) : Decidable (HasCode r req) :=
  match h : getProp req.ranks r with
  | .own c =>
    if hc : c = "" then
      isFalse (by rintro ⟨c2, h2, hne⟩; rw [h] at h2; cases h2; exact hne hc)
    else isTrue ⟨c, h, hc⟩
  | .inherited => isFalse (by rintro ⟨c, hc, _⟩; rw [h] at hc; cases hc)
  | .undefined => isFalse (by rintro ⟨c, hc, _⟩; rw [h] at hc; cases hc)

/-- The rank predicate of the query: the read `ranks[r]` is truthy, that is a
non-empty code of the mapping or a member inherited from `Object.prototype`. -/
def RankReadTruthy (r : String) (req : Requirement) : Prop :=
  HasCode r req ∨ getProp req.ranks r = .inherited

/-- The rank predicate is decidable. -/
instance decidableRankReadTruthy (r : String) (req : Requirement) :
    Decidable (RankReadTruthy r req) := by
  unfold RankReadTruthy; infer_instance

/-- The result of a search by flag and text only, as the specification words it:
the query completes and shows exactly the requirements of `fd` that mention the
normalised input, in their original order. -/
def SearchOnlySpec (L : LowerCase) (app : MaritimeApp) (flagCode : String) (fd : FlagData)
    (searchInput : String) : Prop :=
  ∃ d : SearchDisplay,
    performSearch L app flagCode "" searchInput = .displayed (.ok d) ∧
    d.results = fd.requirements.filter
      (fun req => decide (Mentions L (trim (toLowerCase L searchInput)) req)) ∧
    ((∀ req ∈ fd.requirements, ¬ Mentions L (trim (toLowerCase L searchInput)) req) →
      d.results = [])

/-- Every applicability code of the requirement is `"M"`, `"R"` or empty. -/
def ValidCodes (req : Requirement) : Prop :=
  ∀ e ∈ req.ranks, e.2 = "M" ∨ e.2 = "R" ∨ e.2 = ""

/-- Validity of the codes of a requirement is decidable. -/
instance decidableValidCodes (req : Requirement) : Decidable (ValidCodes req) := by
  unfold ValidCodes; infer_instance

/-- Every applicability code reachable from the application state is valid:
those of every flag of the dataset and those of the current flag. -/
def DatasetValid (app : MaritimeApp) : Prop :=
  (∀ e ∈ app.allFlags, ∀ req ∈ e.2.requirements, ValidCodes req) ∧
  (∀ req ∈ (match app.currentData with
      | some cd => cd.requirements
      | none => []), ValidCodes req)

/-- Validity of the codes of a dataset is decidable. -/
instance decidableDatasetValid (app : MaritimeApp) : Decidable (DatasetValid app) := by
  unfold DatasetValid; infer_instance

/-! ## Basic facts about the primitives -/

theorem truthyString_iff (s : String) : truthyString s = true ↔ s ≠ "" := by
  simp [truthyString]

theorem includes_iff (s t : String) : includes s t = true ↔ IsSubstring t s := by
  unfold includes IsSubstring
  rw [decide_eq_true_iff]
  constructor
  · rintro ⟨l1, l2, e⟩
    exact ⟨String.mk l1, String.mk l2, by apply String.ext; simp [String.data_append, e]⟩
  · rintro ⟨a, b, e⟩
    exact ⟨a.data, b.data, by rw [e]; simp [String.data_append]⟩

theorem matchesSearch_iff (L : LowerCase) (t : String) (req : Requirement) :
    matchesSearch L t req = true ↔ Mentions L t req := by
  simp [matchesSearch, Mentions, includes_iff, or_assoc]

theorem matchesSearch_eq_decide (L : LowerCase) (t : String) (req : Requirement) :
    matchesSearch L t req = decide (Mentions L t req) := by
  rw [Bool.eq_iff_iff, matchesSearch_iff, decide_eq_true_iff]

theorem truthy_iff (v : Lookup String) :
    truthy v = true ↔ (∃ c : String, v = .own c ∧ c ≠ "") ∨ v = .inherited := by
  cases v with
  | own s => simp [truthy, truthyString]
  | inherited => simp [truthy]
  | undefined => simp [truthy]

theorem truthy_getProp_iff (r : String) (req : Requirement) :
    truthy (getProp req.ranks r) = true ↔ RankReadTruthy r req := by
  rw [truthy_iff]; rfl

theorem getProp_ne_inherited {α : Type} (obj : List (String × α)) (key : String)
    (h : key ∉ objectPrototypeKeys) : getProp obj key ≠ .inherited := by
  unfold getProp
  cases getOwn obj key with
  | some v => simp
  | none => simp [h]

theorem rankReadTruthy_iff_hasCode (r : String) (req : Requirement)
    (h : r ∉ objectPrototypeKeys) : RankReadTruthy r req ↔ HasCode r req := by
  unfold RankReadTruthy
  constructor
  · rintro (h1 | h1)
    · exact h1
    · exact absurd h1 (getProp_ne_inherited req.ranks r h)
  · exact Or.inl

theorem searchStep_of_ne (L : LowerCase) (t : String) (h : t ≠ "") (l : List Requirement) :
    searchStep L t l = l.filter (fun req => decide (Mentions L t req)) := by
  unfold searchStep
  rw [if_pos ((truthyString_iff t).2 h)]
  exact List.filter_congr (fun req _ => matchesSearch_eq_decide L t req)

theorem rankStep_of_ne (r : String) (h : r ≠ "") (l : List Requirement) :
    rankStep r l = l.filter (fun req => decide (RankReadTruthy r req)) := by
  unfold rankStep
  rw [if_pos ((truthyString_iff r).2 h)]
  refine List.filter_congr (fun req _ => ?_)
  rw [Bool.eq_iff_iff, truthy_getProp_iff, decide_eq_true_iff]

theorem rankStep_of_not_inherited (r : String) (h : r ≠ "") (hp : r ∉ objectPrototypeKeys)
    (l : List Requirement) :
    rankStep r l = l.filter (fun req => decide (HasCode r req)) := by
  rw [rankStep_of_ne r h]
  refine List.filter_congr (fun req _ => ?_)
  rw [Bool.eq_iff_iff, decide_eq_true_iff, decide_eq_true_iff,
    rankReadTruthy_iff_hasCode r req hp]

theorem searchStep_empty (L : LowerCase) (l : List Requirement) : searchStep L "" l = l := by
  simp [searchStep, truthyString]

theorem rankStep_empty (l : List Requirement) : rankStep "" l = l := by
  simp [rankStep, truthyString]

theorem searchStep_subset (L : LowerCase) (t : String) (l : List Requirement)
    (req : Requirement) (h : req ∈ searchStep L t l) : req ∈ l := by
  unfold searchStep at h
  split at h
  · exact (List.mem_filter.1 h).1
  · exact h

theorem rankStep_sublist (r : String) (l : List Requirement) : (rankStep r l).Sublist l := by
  unfold rankStep
  split
  · exact List.filter_sublist l
  · exact List.Sublist.refl l

theorem resolveFlag_of_present (app : MaritimeApp) (flagCode : String) (fd : FlagData)
    (hne : flagCode ≠ "") (h : getProp app.allFlags flagCode = .own fd) :
    resolveFlag app flagCode = .ok (some fd, fd.requirements) := by
  unfold resolveFlag
  rw [if_pos ((truthyString_iff flagCode).2 hne), h]

theorem resolveFlag_total (app : MaritimeApp) (flagCode : String) (fd : FlagData)
    (h : getProp app.allFlags flagCode = .own fd) :
    ∃ fdo base, resolveFlag app flagCode = .ok (fdo, base) ∧
      (flagCode ≠ "" → fdo = some fd ∧ base = fd.requirements) := by
  by_cases hne : flagCode = ""
  · unfold resolveFlag
    rw [if_neg (by simp [truthyString, hne])]
    cases app.currentData with
    | none => exact ⟨_, _, rfl, fun h2 => absurd hne h2⟩
    | some cd => exact ⟨_, _, rfl, fun h2 => absurd hne h2⟩
  · exact ⟨_, _, resolveFlag_of_present app flagCode fd hne h, fun _ => ⟨rfl, rfl⟩⟩

theorem displaySearchResults_results (L : LowerCase) (app : MaritimeApp)
    (flagCode rank t : String) (fdo : Option FlagData) (base : List Requirement)
    (h : resolveFlag app flagCode = .ok (fdo, base)) :
    ∃ d, displaySearchResults L app flagCode rank t = .ok d ∧
      d.results = rankStep rank (searchStep L t base) ∧
      d.elements = d.results.map (fun req => createRequirementElement req rank fdo) := by
  unfold displaySearchResults
  rw [h]
  exact ⟨_, rfl, rfl, rfl⟩

theorem performSearch_proceeds (L : LowerCase) (app : MaritimeApp)
    (flagCode rank searchInput : String)
    (h : flagCode ≠ "" ∨ rank ≠ "" ∨ trim (toLowerCase L searchInput) ≠ "") :
    performSearch L app flagCode rank searchInput =
      .displayed (displaySearchResults L app flagCode rank
        (trim (toLowerCase L searchInput))) := by
  unfold performSearch
  rcases h with h | h | h
  · simp [(truthyString_iff flagCode).2 h]
  · simp [(truthyString_iff rank).2 h]
  · simp [(truthyString_iff _).2 h]

/-! ## Facts about own keys -/

theorem objectKeys_perm {α : Type} (obj : List (String × α)) :
    (objectKeys obj).Perm (ownKeys obj) := by
  unfold objectKeys
  exact ((List.perm_insertionSort _ _).append_right _).trans
    (List.filter_append_perm isArrayIndex (ownKeys obj))

theorem getOwn_eq_none_of_not_mem_keys {α : Type} (l : List (String × α)) (key : String)
    (h : key ∉ ownKeys l) : getOwn l key = none := by
  induction l with
  | nil => rfl
  | cons e rest ih =>
    obtain ⟨k, v⟩ := e
    simp only [ownKeys, List.mem_cons, List.mem_filter, not_or, not_and] at h
    obtain ⟨hne, hrest⟩ := h
    have hk : ¬ k = key := fun e => hne e.symm
    simp only [getOwn, if_neg hk]
    apply ih
    intro hmem
    exact hrest hmem (by simpa using hne)

theorem getOwn_ne_none_of_mem_keys {α : Type} (l : List (String × α)) (key : String)
    (h : key ∈ ownKeys l) : getOwn l key ≠ none := by
  induction l with
  | nil => cases h
  | cons e rest ih =>
    obtain ⟨k, v⟩ := e
    simp only [ownKeys, List.mem_cons, List.mem_filter] at h
    by_cases hk : k = key
    · simp [getOwn, hk]
    · simp only [getOwn, if_neg hk]
      rcases h with h | h
      · exact absurd h.symm hk
      · exact ih h.1

theorem getProp_undefined_of_not_mem_keys {α : Type} (l : List (String × α)) (key : String)
    (h : key ∉ objectKeys l) (hp : key ∉ objectPrototypeKeys) : getProp l key = .undefined := by
  have h2 : key ∉ ownKeys l := fun hm => h ((objectKeys_perm l).mem_iff.2 hm)
  unfold getProp
  rw [getOwn_eq_none_of_not_mem_keys l key h2]
  simp [hp]

theorem getOwn_mem {α : Type} (l : List (String × α)) (key : String) (v : α)
    (h : getOwn l key = some v) : (key, v) ∈ l := by
  induction l with
  | nil => cases h
  | cons e rest ih =>
    obtain ⟨k, w⟩ := e
    unfold getOwn at h
    split at h
    · rename_i hk
      cases h
      rw [hk]
      exact List.mem_cons_self _ _
    · exact List.mem_cons_of_mem _ (ih h)

theorem getProp_own_mem {α : Type} (l : List (String × α)) (key : String) (v : α)
    (h : getProp l key = .own v) : (key, v) ∈ l := by
  apply getOwn_mem
  cases ho : getOwn l key with
  | some w =>
    simp only [getProp, ho] at h
    cases h
    rfl
  | none =>
    simp only [getProp, ho] at h
    split at h <;> cases h

theorem ownKeys_of_nodup {α : Type} (l : List (String × α))
    (h : (l.map Prod.fst).Nodup) : ownKeys l = l.map Prod.fst := by
  induction l with
  | nil => rfl
  | cons e rest ih =>
    obtain ⟨k, v⟩ := e
    rw [List.map_cons, List.nodup_cons] at h
    simp only [ownKeys, List.map_cons]
    rw [ih h.2, List.filter_eq_self.2]
    intro a ha
    rw [decide_eq_true_iff]
    rintro rfl
    exact h.1 ha

theorem getProp_of_mem_nodup {α : Type} (l : List (String × α))
    (h : (l.map Prod.fst).Nodup) (e : String × α) (he : e ∈ l) :
    getProp l e.1 = .own e.2 := by
  have ho : getOwn l e.1 = some e.2 := by
    induction l with
    | nil => cases he
    | cons e0 rest ih =>
      obtain ⟨k, v⟩ := e0
      rw [List.map_cons, List.nodup_cons] at h
      rcases List.mem_cons.1 he with rfl | hmem
      · simp [getOwn]
      · have hk : ¬ k = e.1 := by
          intro hk
          apply h.1
          rw [hk]
          exact List.mem_map.2 ⟨e, hmem, rfl⟩
        simp only [getOwn, if_neg hk]
        exact ih h.2 hmem
  unfold getProp
  rw [ho]

theorem length_filter_keys_of_nodup (l : List (String × String))
    (h : (l.map Prod.fst).Nodup) (p : Lookup String → Bool) :
    ((objectKeys l).filter (fun k => p (getProp l k))).length =
      (l.filter (fun e => p (.own e.2))).length := by
  rw [((objectKeys_perm l).filter _).length_eq, ownKeys_of_nodup l h, List.filter_map,
    List.length_map]
  congr 1
  refine List.filter_congr (fun e he => ?_)
  simp only [Function.comp_apply]
  rw [getProp_of_mem_nodup l h e he]

/-! ## Search by text -/

/-- C1 (as amended): for a flag stored under a non-empty code, an empty rank and a
search input whose normalised form is non-empty, `performSearch` shows exactly
the requirements of that flag, in order, whose lowercased name, category or
description contains the normalised input; with no match the list is empty and
the query still completes. This holds for every case mapping of the runtime. -/
theorem performSearch_search_only (L : LowerCase) (app : MaritimeApp) (flagCode : String)
    (fd : FlagData) (searchInput : String) (hcode : flagCode ≠ "")
    (hflag : getProp app.allFlags flagCode = .own fd)
    (hterm : trim (toLowerCase L searchInput) ≠ "") :
    SearchOnlySpec L app flagCode fd searchInput := by
  obtain ⟨d, hd, hres, _⟩ := displaySearchResults_results L app flagCode ""
    (trim (toLowerCase L searchInput)) (some fd) fd.requirements
    (resolveFlag_of_present app flagCode fd hcode hflag)
  have hshown : performSearch L app flagCode "" searchInput = .displayed (.ok d) := by
    rw [performSearch_proceeds L app flagCode "" searchInput (Or.inl hcode), hd]
  have hlist : d.results = fd.requirements.filter
      (fun req => decide (Mentions L (trim (toLowerCase L searchInput)) req)) := by
    rw [hres, rankStep_empty, searchStep_of_ne L _ hterm]
  refine ⟨d, hshown, hlist, fun hnone => ?_⟩
  rw [hlist, List.filter_eq_nil_iff]
  intro req hreq
  simpa using hnone req hreq

/-- Witness of C1 on the example dataset: searching flag `AB` for `Fire`. -/
theorem performSearch_search_only_witness :
    SearchOnlySpec asciiLowerCase exampleApp "AB" flagAB " Fire " :=
  performSearch_search_only asciiLowerCase exampleApp "AB" flagAB " Fire "
    (by decide) (by decide) (by decide)

/-- C1 (counterexample): the flag stored under the empty code is present in the
dataset, yet a text search with that code shows the requirements of the current
flag `AB` instead of its own. -/
theorem performSearch_search_only_blank_code :
    getProp blankCodeApp.allFlags "" = .own flagBlank ∧
    trim (toLowerCase asciiLowerCase "Fire") ≠ "" ∧
    ¬ SearchOnlySpec asciiLowerCase blankCodeApp "" flagBlank "Fire" := by
  refine ⟨by decide, by decide, ?_⟩
  rintro ⟨d, hd, hres, _⟩
  obtain ⟨d0, h0, hr0, _⟩ := displaySearchResults_results asciiLowerCase blankCodeApp "" ""
    (trim (toLowerCase asciiLowerCase "Fire")) (some flagAB) [fireSafety] (by decide)
  rw [performSearch_proceeds asciiLowerCase blankCodeApp "" "" "Fire"
    (Or.inr (Or.inr (by decide))), h0] at hd
  injection hd with hd
  injection hd with hd
  subst hd
  rw [hr0] at hres
  revert hres
  decide

/-! ## Rank filter -/

/-- C2 (as amended): for a flag present in the dataset and a non-empty rank name
`r`, the query completes and its result is the search-filtered list with exactly
the requirements kept, in order, whose read `ranks[r]` is truthy: a non-empty
code of the mapping or a member inherited from `Object.prototype`. When `r` names
no member of `Object.prototype`, these are exactly the requirements with a
non-empty code for `r`, and the result is empty when `r` is a key of no
requirement's `ranks` mapping. -/
theorem displaySearchResults_rank_step (L : LowerCase) (app : MaritimeApp)
    (flagCode : String) (fd : FlagData) (r t : String)
    (hflag : getProp app.allFlags flagCode = .own fd) (hr : r ≠ "") :
    ∃ fdo base d,
      resolveFlag app flagCode = .ok (fdo, base) ∧
      (flagCode ≠ "" → base = fd.requirements) ∧
      displaySearchResults L app flagCode r t = .ok d ∧
      d.results = (searchStep L t base).filter (fun req => decide (RankReadTruthy r req)) ∧
      (r ∉ objectPrototypeKeys →
        d.results = (searchStep L t base).filter (fun req => decide (HasCode r req)) ∧
        ((∀ req ∈ base, r ∉ objectKeys req.ranks) → d.results = [])) := by
  obtain ⟨fdo, base, hres, hbase⟩ := resolveFlag_total app flagCode fd hflag
  obtain ⟨d, hd, hlist, _⟩ := displaySearchResults_results L app flagCode r t fdo base hres
  have hlist2 := hlist
  rw [rankStep_of_ne r hr] at hlist2
  refine ⟨fdo, base, d, hres, fun h => (hbase h).2, hd, hlist2, fun hp => ?_⟩
  have hlist3 := hlist
  rw [rankStep_of_not_inherited r hr hp] at hlist3
  refine ⟨hlist3, fun hkeys => ?_⟩
  rw [hlist3, List.filter_eq_nil_iff]
  intro req hreq
  have hmem : req ∈ base := searchStep_subset L t base req hreq
  have hnone := getProp_undefined_of_not_mem_keys req.ranks r (hkeys req hmem) hp
  simp only [decide_eq_true_eq]
  rintro ⟨c, hc, _⟩
  rw [hnone] at hc
  cases hc

/-- Witness of C2 on the example dataset: flag `AB` filtered by rank `Master`. -/
theorem displaySearchResults_rank_step_witness :
    ∃ fdo base d,
      resolveFlag exampleApp "AB" = .ok (fdo, base) ∧
      ("AB" ≠ "" → base = flagAB.requirements) ∧
      displaySearchResults asciiLowerCase exampleApp "AB" "Master" "" = .ok d ∧
      d.results = (searchStep asciiLowerCase "" base).filter
        (fun req => decide (RankReadTruthy "Master" req)) ∧
      ("Master" ∉ objectPrototypeKeys →
        d.results = (searchStep asciiLowerCase "" base).filter
          (fun req => decide (HasCode "Master" req)) ∧
        ((∀ req ∈ base, "Master" ∉ objectKeys req.ranks) → d.results = [])) :=
  displaySearchResults_rank_step asciiLowerCase exampleApp "AB" flagAB "Master" ""
    (by decide) (by decide)

/-- C2 (counterexample): on the example dataset the rank name `constructor` is a
key of no requirement's `ranks` mapping and `Fire Safety` holds no code for it,
yet the rank filter keeps `Fire Safety`, because the read `ranks["constructor"]`
yields the inherited member of `Object.prototype`. -/
theorem displaySearchResults_rank_step_inherited :
    getProp exampleApp.allFlags "AB" = .own flagAB ∧
    "constructor" ≠ "" ∧
    (∀ req ∈ flagAB.requirements, "constructor" ∉ objectKeys req.ranks) ∧
    ¬ HasCode "constructor" fireSafety ∧
    ∃ d, displaySearchResults asciiLowerCase exampleApp "AB" "constructor" "" = .ok d ∧
      d.results = [fireSafety] ∧ d.results ≠ [] :=
  ⟨by decide, by decide, by decide, by decide, _, rfl, by decide, by decide⟩

/-! ## Summary counts and status -/

/-- C3: the applicable rank count of a rendered requirement is the number of keys
of its `ranks` mapping with a non-empty code, the mandatory count the number of
keys with code `"M"`, the recommended count the number with code `"R"`; when the
listed keys are distinct these are the numbers of entries with such a code; the
example requirement `{Master: "M", OOW: "R"}` gives 2, 1 and 1. -/
theorem createRequirementElement_counts (req : Requirement) (selectedRank : String)
    (fdo : Option FlagData) :
    ((createRequirementElement req selectedRank fdo).applicableRanks.length =
        ((objectKeys req.ranks).filter (fun k => decide (HasCode k req))).length ∧
      (createRequirementElement req selectedRank fdo).mandatoryCount =
        ((objectKeys req.ranks).filter
          (fun k => decide (getProp req.ranks k = .own "M"))).length ∧
      (createRequirementElement req selectedRank fdo).recommendedCount =
        ((objectKeys req.ranks).filter
          (fun k => decide (getProp req.ranks k = .own "R"))).length) ∧
    ((req.ranks.map Prod.fst).Nodup →
      (createRequirementElement req selectedRank fdo).applicableRanks.length =
        (req.ranks.filter (fun e => decide (e.2 ≠ ""))).length ∧
      (createRequirementElement req selectedRank fdo).mandatoryCount =
        (req.ranks.filter (fun e => decide (e.2 = "M"))).length ∧
      (createRequirementElement req selectedRank fdo).recommendedCount =
        (req.ranks.filter (fun e => decide (e.2 = "R"))).length) ∧
    ((createRequirementElement fireSafety "Master" (some flagAB)).applicableRanks.length = 2 ∧
      (createRequirementElement fireSafety "Master" (some flagAB)).mandatoryCount = 1 ∧
      (createRequirementElement fireSafety "Master" (some flagAB)).recommendedCount = 1) := by
  refine ⟨⟨?_, rfl, rfl⟩, fun hnd => ⟨?_, ?_, ?_⟩, by decide⟩
  · show ((objectKeys req.ranks).filter (fun rank => truthy (getProp req.ranks rank) &&
        decide (getProp req.ranks rank ≠ .own ""))).length = _
    congr 1
    refine List.filter_congr (fun k hk => ?_)
    have hown : k ∈ ownKeys req.ranks := (objectKeys_perm req.ranks).mem_iff.1 hk
    have hni : getProp req.ranks k ≠ .inherited := by
      intro hi
      cases ho : getOwn req.ranks k with
      | some v => simp [getProp, ho] at hi
      | none =>
        apply absurd hown
        intro hmem
        exact getOwn_ne_none_of_mem_keys req.ranks k hmem ho
    rw [Bool.eq_iff_iff, Bool.and_eq_true, truthy_getProp_iff, decide_eq_true_iff,
      decide_eq_true_iff]
    constructor
    · rintro ⟨h | h, _⟩
      · exact h
      · exact absurd h hni
    · rintro ⟨c, hc, hne⟩
      refine ⟨Or.inl ⟨c, hc, hne⟩, ?_⟩
      rw [hc]
      intro h
      cases h
      exact hne rfl
  · show ((objectKeys req.ranks).filter (fun rank => truthy (getProp req.ranks rank) &&
        decide (getProp req.ranks rank ≠ .own ""))).length = _
    rw [length_filter_keys_of_nodup req.ranks hnd (fun v => truthy v && decide (v ≠ .own ""))]
    congr 1
    refine List.filter_congr (fun e _ => ?_)
    by_cases he : e.2 = "" <;> simp [truthy, truthyString, he]
  · show ((objectKeys req.ranks).filter
        (fun rank => strictEq (getProp req.ranks rank) "M")).length = _
    rw [length_filter_keys_of_nodup req.ranks hnd (fun v => strictEq v "M")]
    congr 1
    refine List.filter_congr (fun e _ => ?_)
    simp [strictEq]
  · show ((objectKeys req.ranks).filter
        (fun rank => strictEq (getProp req.ranks rank) "R")).length = _
    rw [length_filter_keys_of_nodup req.ranks hnd (fun v => strictEq v "R")]
    congr 1
    refine List.filter_congr (fun e _ => ?_)
    simp [strictEq]

/-- Witness of C3: the entry counts of the example requirement, whose rank keys
`Master` and `OOW` are distinct. -/
theorem createRequirementElement_counts_witness :
    (createRequirementElement fireSafety "OOW" none).applicableRanks.length =
        (fireSafety.ranks.filter (fun e => decide (e.2 ≠ ""))).length ∧
      (createRequirementElement fireSafety "OOW" none).mandatoryCount =
        (fireSafety.ranks.filter (fun e => decide (e.2 = "M"))).length ∧
      (createRequirementElement fireSafety "OOW" none).recommendedCount =
        (fireSafety.ranks.filter (fun e => decide (e.2 = "R"))).length :=
  (createRequirementElement_counts fireSafety "OOW" none).2.1 (by decide)

theorem status_mandatory_of_code (req : Requirement) (r : String) (fdo : Option FlagData)
    (hr : r ≠ "") (h : getProp req.ranks r = .own "M") :
    (createRequirementElement req r fdo).status = "Mandatory" := by
  simp [createRequirementElement, truthy, truthyString, strictEq, h, hr]

theorem status_recommended_of_code (req : Requirement) (r : String) (fdo : Option FlagData)
    (hr : r ≠ "") (h : getProp req.ranks r = .own "R") :
    (createRequirementElement req r fdo).status = "Recommended" := by
  have hMR : ("R" : String) ≠ "M" := by decide
  simp [createRequirementElement, truthy, truthyString, strictEq, h, hr, hMR]

/-- C4: the status of a rendered requirement is `"Mandatory"` exactly when a rank
is selected and its code is `"M"`, `"Recommended"` exactly when a rank is
selected and its code is `"R"`, and `"N/A"` in every other case. -/
theorem createRequirementElement_status (req : Requirement) (r : String)
    (fdo : Option FlagData) :
    ((createRequirementElement req r fdo).status = "Mandatory" ↔
        r ≠ "" ∧ getProp req.ranks r = .own "M") ∧
    ((createRequirementElement req r fdo).status = "Recommended" ↔
        r ≠ "" ∧ getProp req.ranks r = .own "R") ∧
    ((createRequirementElement req r fdo).status = "N/A" ↔
        ¬ (r ≠ "" ∧ getProp req.ranks r = .own "M") ∧
        ¬ (r ≠ "" ∧ getProp req.ranks r = .own "R")) := by
  have hM : ("M" : String) ≠ "" := by decide
  have hR : ("R" : String) ≠ "" := by decide
  have hMR : ("M" : String) ≠ "R" := by decide
  have h1 : ("Mandatory" : String) ≠ "Recommended" := by decide
  have h2 : ("Mandatory" : String) ≠ "N/A" := by decide
  have h3 : ("Recommended" : String) ≠ "N/A" := by decide
  by_cases hr : r = ""
  · subst hr
    simp [createRequirementElement, truthyString, h2.symm, h3.symm]
  · cases hv : getProp req.ranks r with
    | undefined => simp [createRequirementElement, truthy, strictEq, hv, h2.symm, h3.symm]
    | inherited => simp [createRequirementElement, truthy, strictEq, hv, h2.symm, h3.symm]
    | own c =>
      by_cases hcM : c = "M"
      · subst hcM
        simp [createRequirementElement, truthy, truthyString, strictEq, hv, hr, h1, h2, hMR]
      · by_cases hcR : c = "R"
        · subst hcR
          simp [createRequirementElement, truthy, truthyString, strictEq, hv, hr, h1.symm, h3,
            hMR.symm]
        · simp [createRequirementElement, truthy, truthyString, strictEq, hv, hr, hcM, hcR,
            h2.symm, h3.symm]

/-! ## The usage error -/

/-- C5: `performSearch` raises the usage alert, and displays nothing, exactly when
the flag code, the rank and the (normalised) search term are all empty; in every
other case it goes on to `displaySearchResults` with those three values. -/
theorem performSearch_usage_error (L : LowerCase) (app : MaritimeApp)
    (flagCode rank searchInput : String) :
    ((∃ m, performSearch L app flagCode rank searchInput = .usageError m) ↔
        flagCode = "" ∧ rank = "" ∧ trim (toLowerCase L searchInput) = "") ∧
    ((flagCode = "" ∧ rank = "" ∧ trim (toLowerCase L searchInput) = "") →
        performSearch L app flagCode rank searchInput = .usageError usageMessage) ∧
    (¬ (flagCode = "" ∧ rank = "" ∧ trim (toLowerCase L searchInput) = "") →
        performSearch L app flagCode rank searchInput =
          .displayed (displaySearchResults L app flagCode rank
            (trim (toLowerCase L searchInput)))) := by
  have hall : (flagCode = "" ∧ rank = "" ∧ trim (toLowerCase L searchInput) = "") →
      performSearch L app flagCode rank searchInput = .usageError usageMessage := by
    rintro ⟨h1, h2, h3⟩
    unfold performSearch
    simp [truthyString, h1, h2, h3]
  have hsome : ¬ (flagCode = "" ∧ rank = "" ∧ trim (toLowerCase L searchInput) = "") →
      performSearch L app flagCode rank searchInput =
        .displayed (displaySearchResults L app flagCode rank
          (trim (toLowerCase L searchInput))) := by
    intro h
    apply performSearch_proceeds
    by_contra hc
    push_neg at hc
    exact h hc
  refine ⟨⟨?_, fun h => ⟨_, hall h⟩⟩, hall, hsome⟩
  rintro ⟨m, hm⟩
  by_contra hc
  rw [hsome hc] at hm
  cases hm

/-- Witness of C5: the query with three empty inputs on the example dataset. -/
theorem performSearch_usage_error_witness :
    performSearch asciiLowerCase exampleApp "" "" "   " = .usageError usageMessage :=
  (performSearch_usage_error asciiLowerCase exampleApp "" "" "   ").2.1 (by decide)

/-! ## Unknown flag codes -/

theorem displaySearchResults_unknown_flag (L : LowerCase) (app : MaritimeApp)
    (flagCode rank t : String)
    (hne : flagCode ≠ "") (h : getOwn app.allFlags flagCode = none) :
    displaySearchResults L app flagCode rank t = .error .typeError := by
  have hres : resolveFlag app flagCode = .error .typeError := by
    unfold resolveFlag getProp
    rw [if_pos ((truthyString_iff flagCode).2 hne), h]
    by_cases hp : flagCode ∈ objectPrototypeKeys <;> simp [hp]
  unfold displaySearchResults
  rw [hres]

/-- C6 (failing input): on the example dataset the query for the unknown flag
code `ZZ` throws a `TypeError`, where the sibling helpers `getRequirementsByRank`
and `searchRequirements` return the empty list for missing flag data and
`onFlagChange` leaves the state alone. -/
theorem displaySearchResults_unknown_flag_throws (L : LowerCase) :
    getProp exampleApp.allFlags "ZZ" = .undefined ∧
    displaySearchResults L exampleApp "ZZ" "" "" = .error .typeError ∧
    performSearch L exampleApp "ZZ" "" "" = .displayed (.error .typeError) ∧
    getRequirementsByRank "Master" none = [] ∧
    searchRequirements L "fire" none = [] ∧
    onFlagChange exampleApp "ZZ" = .ok exampleApp := by
  have hthrow : ∀ t, displaySearchResults L exampleApp "ZZ" "" t = .error .typeError :=
    fun t => displaySearchResults_unknown_flag L exampleApp "ZZ" "" t (by decide) (by decide)
  refine ⟨by decide, hthrow "", ?_, rfl, rfl, by decide⟩
  rw [performSearch_proceeds L exampleApp "ZZ" "" "" (Or.inl (by decide)), hthrow]

/-! ## Composition of the two filters -/

/-- C7: for a non-empty rank `r` and a non-empty search term `t`, filtering by
search and then by rank gives the same list as filtering by rank and then by
search, and a requirement of the list is in the result exactly when it satisfies
both the search predicate and the rank predicate (a truthy read `ranks[r]`,
which is a non-empty code for `r` when `r` names no member of
`Object.prototype`). -/
theorem searchStep_rankStep_comm (L : LowerCase) (l : List Requirement) (r t : String)
    (hr : r ≠ "") (ht : t ≠ "") :
    rankStep r (searchStep L t l) = searchStep L t (rankStep r l) ∧
    (∀ req, req ∈ rankStep r (searchStep L t l) ↔
      req ∈ l ∧ Mentions L t req ∧ RankReadTruthy r req) ∧
    (r ∉ objectPrototypeKeys → ∀ req, req ∈ rankStep r (searchStep L t l) ↔
      req ∈ l ∧ Mentions L t req ∧ HasCode r req) := by
  have hmem : ∀ req, req ∈ rankStep r (searchStep L t l) ↔
      req ∈ l ∧ Mentions L t req ∧ RankReadTruthy r req := by
    intro req
    rw [rankStep_of_ne r hr, searchStep_of_ne L t ht, List.mem_filter, List.mem_filter,
      decide_eq_true_iff, decide_eq_true_iff, and_assoc]
  refine ⟨?_, hmem, fun hp req => ?_⟩
  · rw [rankStep_of_ne r hr, searchStep_of_ne L t ht, rankStep_of_ne r hr,
      searchStep_of_ne L t ht, List.filter_filter, List.filter_filter]
    exact List.filter_congr (fun req _ => Bool.and_comm _ _)
  · rw [hmem req, rankReadTruthy_iff_hasCode r req hp]

/-- Witness of C7 on the example requirement list. -/
theorem searchStep_rankStep_comm_witness :
    rankStep "Master" (searchStep asciiLowerCase "fire"
        [fireSafety, fireFighting, oddRequirement]) =
      searchStep asciiLowerCase "fire"
        (rankStep "Master" [fireSafety, fireFighting, oddRequirement]) ∧
    (∀ req, req ∈ rankStep "Master" (searchStep asciiLowerCase "fire"
        [fireSafety, fireFighting, oddRequirement])
      ↔ req ∈ [fireSafety, fireFighting, oddRequirement] ∧
        Mentions asciiLowerCase "fire" req ∧ RankReadTruthy "Master" req) ∧
    ("Master" ∉ objectPrototypeKeys →
      ∀ req, req ∈ rankStep "Master" (searchStep asciiLowerCase "fire"
        [fireSafety, fireFighting, oddRequirement])
      ↔ req ∈ [fireSafety, fireFighting, oddRequirement] ∧
        Mentions asciiLowerCase "fire" req ∧ HasCode "Master" req) :=
  searchStep_rankStep_comm asciiLowerCase [fireSafety, fireFighting, oddRequirement]
    "Master" "fire" (by decide) (by decide)

/-! ## Monotonicity of the rank filter -/

/-- C8: for a flag present in the dataset, any search term and any rank name `r`,
both queries complete, the result of the query with rank filter `r` is a sublist
of the result of the same query without rank filter, and so is not longer. -/
theorem displaySearchResults_rank_monotone (L : LowerCase) (app : MaritimeApp)
    (flagCode : String) (fd : FlagData) (t r : String)
    (hflag : getProp app.allFlags flagCode = .own fd) :
    ∃ dAll dRank,
      displaySearchResults L app flagCode "" t = .ok dAll ∧
      displaySearchResults L app flagCode r t = .ok dRank ∧
      dRank.results.Sublist dAll.results ∧
      dRank.results.length ≤ dAll.results.length := by
  obtain ⟨fdo, base, hres, _⟩ := resolveFlag_total app flagCode fd hflag
  obtain ⟨dAll, hAll, hlAll, _⟩ :=
    displaySearchResults_results L app flagCode "" t fdo base hres
  obtain ⟨dRank, hRank, hlRank, _⟩ :=
    displaySearchResults_results L app flagCode r t fdo base hres
  have hsub : dRank.results.Sublist dAll.results := by
    rw [hlAll, hlRank, rankStep_empty]
    exact rankStep_sublist r _
  exact ⟨dAll, dRank, hAll, hRank, hsub, hsub.length_le⟩

/-- Witness of C8 on the example dataset: flag `AB`, term `fire`, rank `Cook`. -/
theorem displaySearchResults_rank_monotone_witness :
    ∃ dAll dRank,
      displaySearchResults asciiLowerCase exampleApp "AB" "" "fire" = .ok dAll ∧
      displaySearchResults asciiLowerCase exampleApp "AB" "Cook" "fire" = .ok dRank ∧
      dRank.results.Sublist dAll.results ∧
      dRank.results.length ≤ dAll.results.length :=
  displaySearchResults_rank_monotone asciiLowerCase exampleApp "AB" flagAB "fire" "Cook"
    (by decide)

/-! ## Status of the requirements that pass the rank filter -/

theorem resolveFlag_valid (app : MaritimeApp) (flagCode : String) (fdo : Option FlagData)
    (base : List Requirement) (hvalid : DatasetValid app)
    (h : resolveFlag app flagCode = .ok (fdo, base)) : ∀ req ∈ base, ValidCodes req := by
  unfold resolveFlag at h
  split at h
  · cases hfd : getProp app.allFlags flagCode with
    | undefined => rw [hfd] at h; cases h
    | inherited => rw [hfd] at h; cases h
    | own fd =>
      rw [hfd] at h
      cases h
      exact hvalid.1 (flagCode, fd) (getProp_own_mem _ _ _ hfd)
  · cases hcd : app.currentData with
    | none =>
      rw [hcd] at h
      cases h
      intro req hreq
      cases hreq
    | some cd =>
      rw [hcd] at h
      cases h
      have h2 := hvalid.2
      rw [hcd] at h2
      exact h2

theorem status_of_own_code (req : Requirement) (r : String) (fdo : Option FlagData)
    (hr : r ≠ "") (hvalid : ValidCodes req) (hcode : HasCode r req) :
    ((createRequirementElement req r fdo).status = "Mandatory" ∨
      (createRequirementElement req r fdo).status = "Recommended") ∧
    (createRequirementElement req r fdo).status ≠ "N/A" := by
  obtain ⟨c, hc, hne⟩ := hcode
  rcases hvalid (r, c) (getProp_own_mem _ _ _ hc) with hv | hv | hv
  · have hst := status_mandatory_of_code req r fdo hr (by rw [hc, ← hv])
    exact ⟨Or.inl hst, by rw [hst]; decide⟩
  · have hst := status_recommended_of_code req r fdo hr (by rw [hc, ← hv])
    exact ⟨Or.inr hst, by rw [hst]; decide⟩
  · exact absurd hv hne

/-- C9 (as amended): when every applicability code of the dataset is `"M"`, `"R"`
or empty, every requirement that a query with a non-empty rank `r` shows because
of a code of its own `ranks` mapping gets the status `"Mandatory"` or
`"Recommended"`, never `"N/A"`; these are all the requirements shown when `r`
names no member of `Object.prototype`. With a code outside that set (the code
`"X"` of `oddApp`) a requirement passes the rank filter and is shown with status
`"N/A"`. -/
theorem displaySearchResults_survivor_status :
    (∀ (L : LowerCase) (app : MaritimeApp) (flagCode r t : String) (d : SearchDisplay),
      DatasetValid app → r ≠ "" → displaySearchResults L app flagCode r t = .ok d →
      d.elements.length = d.results.length ∧
      (∀ req ∈ d.results, ∀ fdo : Option FlagData, getProp req.ranks r ≠ .inherited →
        ((createRequirementElement req r fdo).status = "Mandatory" ∨
          (createRequirementElement req r fdo).status = "Recommended") ∧
        (createRequirementElement req r fdo).status ≠ "N/A") ∧
      (r ∉ objectPrototypeKeys → ∀ e ∈ d.elements,
        (e.status = "Mandatory" ∨ e.status = "Recommended") ∧ e.status ≠ "N/A")) ∧
    (∃ d, displaySearchResults asciiLowerCase oddApp "XX" "Master" "" = .ok d ∧
      d.results = [oddRequirement] ∧ d.elements.map (fun e => e.status) = ["N/A"]) := by
  constructor
  · intro L app flagCode r t d hvalid hr hd
    cases hres : resolveFlag app flagCode with
    | error err =>
      unfold displaySearchResults at hd
      rw [hres] at hd
      cases hd
    | ok pair =>
      obtain ⟨fdo, base⟩ := pair
      obtain ⟨d2, hd2, hlist, helems⟩ :=
        displaySearchResults_results L app flagCode r t fdo base hres
      have hdd : d2 = d := by
        rw [hd2] at hd
        injection hd
      subst hdd
      have hown : ∀ req ∈ d2.results, ∀ fdo2 : Option FlagData,
          getProp req.ranks r ≠ .inherited →
          ((createRequirementElement req r fdo2).status = "Mandatory" ∨
            (createRequirementElement req r fdo2).status = "Recommended") ∧
          (createRequirementElement req r fdo2).status ≠ "N/A" := by
        intro req hreq fdo2 hni
        have hread : RankReadTruthy r req := by
          rw [hlist, rankStep_of_ne r hr] at hreq
          simpa using (List.mem_filter.1 hreq).2
        have hcode : HasCode r req := by
          rcases hread with h | h
          · exact h
          · exact absurd h hni
        have hbase : req ∈ base := by
          rw [hlist] at hreq
          exact searchStep_subset L t base req ((rankStep_sublist r _).subset hreq)
        exact status_of_own_code req r fdo2 hr
          (resolveFlag_valid app flagCode fdo base hvalid hres req hbase) hcode
      refine ⟨by rw [helems, List.length_map], hown, fun hp e he => ?_⟩
      rw [helems, List.mem_map] at he
      obtain ⟨req, hreq, rfl⟩ := he
      exact hown req hreq fdo (getProp_ne_inherited req.ranks r hp)
  · exact ⟨_, rfl, by decide, by decide⟩

/-- Witness of C9 on the example dataset: flag `AB` filtered by rank `OOW`. -/
theorem displaySearchResults_survivor_status_witness :
    ∃ d, displaySearchResults asciiLowerCase exampleApp "AB" "OOW" "" = .ok d ∧
      d.results = [fireSafety] ∧
      ∀ e ∈ d.elements,
        (e.status = "Mandatory" ∨ e.status = "Recommended") ∧ e.status ≠ "N/A" :=
  ⟨_, rfl, by decide,
    (displaySearchResults_survivor_status.1 asciiLowerCase exampleApp "AB" "OOW" "" _
      (by decide) (by decide) rfl).2.2 (by decide)⟩

/-- C9 (counterexample): every code of the example dataset is `"M"` or `"R"`, yet
the query with the rank name `constructor` shows `Fire Safety`, kept because of
the inherited member of `Object.prototype`, with status `"N/A"`. -/
theorem displaySearchResults_survivor_status_inherited :
    DatasetValid exampleApp ∧ "constructor" ≠ "" ∧
    ∃ d, displaySearchResults asciiLowerCase exampleApp "AB" "constructor" "" = .ok d ∧
      d.results = [fireSafety] ∧ d.elements.map (fun e => e.status) = ["N/A"] :=
  ⟨by decide, by decide, _, rfl, by decide, by decide⟩

/-! ## The two text searches -/

theorem matchesSearchStcw_of_matchesSearch (L : LowerCase) (t : String) (req : Requirement)
    (h : matchesSearch L t req = true) : matchesSearchStcw L t req = true := by
  unfold matchesSearch at h
  unfold matchesSearchStcw
  rw [Bool.or_eq_true]
  exact Or.inl h

/-- C10: for a non-empty search term, the three-field filter of
`displaySearchResults` run on the lowercased term returns a sublist of
`searchRequirements`; the two lists are equal when no requirement of the flag
has a non-empty `stcw` field; and `searchRequirements` also returns every
requirement whose lowercased `stcw` field contains the lowercased term, as for
the term `VI/3` on `flagBoth`, which only `searchRequirements` finds. -/
theorem searchStep_sublist_searchRequirements (L : LowerCase) (fd : FlagData)
    (term : String) (hterm : term ≠ "") :
    (searchStep L (toLowerCase L term) fd.requirements).Sublist
      (searchRequirements L term (some fd)) ∧
    ((∀ req ∈ fd.requirements, req.stcw = none ∨ req.stcw = some "") →
      searchStep L (toLowerCase L term) fd.requirements =
        searchRequirements L term (some fd)) ∧
    (∀ req ∈ fd.requirements, ∀ s : String, req.stcw = some s →
      IsSubstring (toLowerCase L term) (toLowerCase L s) →
      req ∈ searchRequirements L term (some fd)) ∧
    (searchStep asciiLowerCase (toLowerCase asciiLowerCase "VI/3") flagBoth.requirements = [] ∧
      searchRequirements asciiLowerCase "VI/3" (some flagBoth) = [fireFighting]) := by
  have hlow : toLowerCase L term ≠ "" := fun h => hterm ((L.fold_eq_empty term).1 h)
  have hs : searchStep L (toLowerCase L term) fd.requirements =
      fd.requirements.filter (matchesSearch L (toLowerCase L term)) := by
    unfold searchStep
    rw [if_pos ((truthyString_iff _).2 hlow)]
  have hq : searchRequirements L term (some fd) =
      fd.requirements.filter (matchesSearchStcw L (toLowerCase L term)) := by
    unfold searchRequirements
    simp [(truthyString_iff term).2 hterm]
  refine ⟨?_, ?_, ?_, by decide⟩
  · rw [hs, hq]
    exact List.monotone_filter_right _
      (fun req h => matchesSearchStcw_of_matchesSearch L _ req h)
  · intro hno
    rw [hs, hq]
    refine List.filter_congr (fun req hreq => ?_)
    unfold matchesSearchStcw matchesSearch
    rcases hno req hreq with h | h
    · simp [h, truthyField]
    · simp [h, truthyField, truthyString]
  · intro req hreq s hstcw hsub
    rw [hq, List.mem_filter]
    refine ⟨hreq, ?_⟩
    unfold matchesSearchStcw
    by_cases hne : s = ""
    · subst hne
      exfalso
      obtain ⟨a, b, e⟩ := hsub
      apply hlow
      have h0 : toLowerCase L "" = "" := (L.fold_eq_empty "").2 rfl
      rw [h0] at e
      have hlen := congrArg String.length e
      simp only [String.length_append] at hlen
      have hz : (toLowerCase L term).length = 0 := by
        have h00 : ("" : String).length = 0 := rfl
        omega
      exact String.ext (List.length_eq_zero.1 hz)
    · simp [hstcw, truthyField, (truthyString_iff s).2 hne, (includes_iff _ _).2 hsub]

/-- Witness of C10 on `flagBoth` with the term `Fire`. -/
theorem searchStep_sublist_searchRequirements_witness :
    (searchStep asciiLowerCase (toLowerCase asciiLowerCase "Fire")
      flagBoth.requirements).Sublist
      (searchRequirements asciiLowerCase "Fire" (some flagBoth)) :=
  (searchStep_sublist_searchRequirements asciiLowerCase flagBoth "Fire" (by decide)).1

end Maritime
